import Mathlib

/-!
Verification development for `pwgen.py`, a single-file password generator.

The program pipeline (function `pwgen`):
1. read a word list, sample 4 words with replacement, strip trailing
   whitespace from each, join them with single spaces into a phrase;
2. hash the phrase with SHA-256 and render the digest as 64 lowercase
   hexadecimal characters;
3. sample 15 characters with replacement from the digest;
4. capitalize one letter chosen from the "eligible" set `capl`;
5. insert one symbol from a fixed symbol set at a random position;
6. display the result in 4-character blocks joined by spaces, and print it.

All randomness is modelled by explicit index parameters gathered in a
`Rand` structure; each theorem that needs a random value to be in range
carries that bound as a hypothesis (Python's `random.choices`,
`random.choice` and `random.randint` always return in-range values).

Strings are modelled as `List Char`, bytes as `Nat` below 256, 32-bit
words as `Nat` reduced modulo `2^32` at every arithmetic step.
-/

namespace Pwgen

/-! ## SHA-256 (the `hashlib.sha256(...).hexdigest()` call, line 57)

Modelled from the spec: `hashlib` is the Python standard library, not part
of this repository; the spec states the algorithm — "encode the joined
phrase as UTF-8 bytes; compute SHA-256; render as lowercase hexadecimal
(64 characters, alphabet 0-9a-f)".  The definitions below implement
SHA-256 as standardised (FIPS 180-4) over byte lists. -/

/-- Reduce a natural number to a 32-bit word. -/
def mask32 (x : Nat) : Nat := x % 4294967296

/-- Addition of 32-bit words. -/
def add32 (a b : Nat) : Nat := mask32 (a + b)

/-- Right rotation of a 32-bit word by `n` bits. -/
def rotr (n x : Nat) : Nat := mask32 ((x >>> n) ||| (x <<< (32 - n)))

/-- Bitwise complement of a 32-bit word. -/
def not32 (x : Nat) : Nat := 4294967295 ^^^ x

/-- SHA-256 choice function. -/
def chFun (x y z : Nat) : Nat := (x &&& y) ^^^ (not32 x &&& z)

/-- SHA-256 majority function. -/
def majFun (x y z : Nat) : Nat := (x &&& y) ^^^ (x &&& z) ^^^ (y &&& z)

/-- SHA-256 big sigma 0. -/
def bsig0 (x : Nat) : Nat := rotr 2 x ^^^ rotr 13 x ^^^ rotr 22 x

/-- SHA-256 big sigma 1. -/
def bsig1 (x : Nat) : Nat := rotr 6 x ^^^ rotr 11 x ^^^ rotr 25 x

/-- SHA-256 small sigma 0. -/
def ssig0 (x : Nat) : Nat := rotr 7 x ^^^ rotr 18 x ^^^ (x >>> 3)

/-- SHA-256 small sigma 1. -/
def ssig1 (x : Nat) : Nat := rotr 17 x ^^^ rotr 19 x ^^^ (x >>> 10)

/-- The 64 SHA-256 round constants (FIPS 180-4 section 4.2.2, here written
in decimal). -/
def roundK : List Nat :=
  [1116352408, 1899447441, 3049323471, 3921009573, 961987163,
   1508970993, 2453635748, 2870763221, 3624381080, 310598401,
   607225278, 1426881987, 1925078388, 2162078206, 2614888103,
   3248222580, 3835390401, 4022224774, 264347078, 604807628,
   770255983, 1249150122, 1555081692, 1996064986, 2554220882,
   2821834349, 2952996808, 3210313671, 3336571891, 3584528711,
   113926993, 338241895, 666307205, 773529912, 1294757372,
   1396182291, 1695183700, 1986661051, 2177026350, 2456956037,
   2730485921, 2820302411, 3259730800, 3345764771, 3516065817,
   3600352804, 4094571909, 275423344, 430227734, 506948616,
   659060556, 883997877, 958139571, 1322822218, 1537002063,
   1747873779, 1955562222, 2024104815, 2227730452, 2361852424,
   2428436474, 2756734187, 3204031479, 3329325298]

/-- The eight 32-bit words of a SHA-256 hash state. -/
structure Hash8 where
  a : Nat
  b : Nat
  c : Nat
  d : Nat
  e : Nat
  f : Nat
  g : Nat
  h : Nat
deriving Repr, DecidableEq

/-- The SHA-256 initial hash value (FIPS 180-4 section 5.3.3, in decimal). -/
def initH : Hash8 :=
  ⟨1779033703, 3144134277, 1013904242, 2773480762,
   1359893119, 2600822924, 528734635, 1541459225⟩

/-- Group a byte list into big-endian 32-bit words, four bytes per word. -/
def toWords : List Nat → List Nat
  | b0 :: b1 :: b2 :: b3 :: rest =>
      (((b0 * 256 + b1) * 256 + b2) * 256 + b3) :: toWords rest
  | _ => []

/-- One extension step of the SHA-256 message schedule: append
`ssig1 w[t-2] + w[t-7] + ssig0 w[t-15] + w[t-16]` to the schedule so far. -/
def schedStep (acc : List Nat) (t : Nat) : List Nat :=
  acc ++ [add32 (add32 (ssig1 (acc.getD (t - 2) 0)) (acc.getD (t - 7) 0))
               (add32 (ssig0 (acc.getD (t - 15) 0)) (acc.getD (t - 16) 0))]

/-- The full 64-word SHA-256 message schedule of one 16-word block. -/
def schedule (w16 : List Nat) : List Nat :=
  (List.range 48).foldl (fun acc i => schedStep acc (16 + i)) w16

/-- One SHA-256 compression round: `kw` is the pair of the round constant
and the schedule word. -/
def shaRound (s : Hash8) (kw : Nat × Nat) : Hash8 :=
  let t1 := add32 s.h (add32 (bsig1 s.e) (add32 (chFun s.e s.f s.g) (add32 kw.1 kw.2)))
  let t2 := add32 (bsig0 s.a) (majFun s.a s.b s.c)
  ⟨add32 t1 t2, s.a, s.b, s.c, add32 s.d t1, s.e, s.f, s.g⟩

/-- Compress one 64-byte block into the running hash state. -/
def compress (h : Hash8) (block : List Nat) : Hash8 :=
  let w := schedule (toWords block)
  let s := (roundK.zip w).foldl shaRound h
  ⟨add32 h.a s.a, add32 h.b s.b, add32 h.c s.c, add32 h.d s.d,
   add32 h.e s.e, add32 h.f s.f, add32 h.g s.g, add32 h.h s.h⟩

/-- The eight big-endian bytes of a 64-bit message length. -/
def lengthBytes (n : Nat) : List Nat :=
  [(n >>> 56) % 256, (n >>> 48) % 256, (n >>> 40) % 256, (n >>> 32) % 256,
   (n >>> 24) % 256, (n >>> 16) % 256, (n >>> 8) % 256, n % 256]

/-- SHA-256 padding: append `0x80`, then zeros up to 56 mod 64, then the
bit length as eight big-endian bytes. -/
def padMessage (msg : List Nat) : List Nat :=
  let len := msg.length
  let zeros := (64 - ((len + 9) % 64)) % 64
  msg ++ 0x80 :: (List.replicate zeros 0 ++ lengthBytes (len * 8))

/-- Split a byte list into 64-byte blocks; the fuel argument (any bound on
the number of blocks, the list's length is used below) keeps the recursion
structural. -/
def chunks64 : Nat → List Nat → List (List Nat)
  | 0, _ => []
  | _, [] => []
  | fuel + 1, x :: xs => ((x :: xs).take 64) :: chunks64 fuel ((x :: xs).drop 64)

/-- SHA-256 of a byte list, as the final eight-word hash state. -/
def sha256 (msg : List Nat) : Hash8 :=
  let padded := padMessage msg
  (chunks64 padded.length padded).foldl compress initH

/-- A hexadecimal digit character (lowercase), `'f'` above 15. -/
def hexDigit : Nat → Char
  | 0 => '0' | 1 => '1' | 2 => '2' | 3 => '3' | 4 => '4'
  | 5 => '5' | 6 => '6' | 7 => '7' | 8 => '8' | 9 => '9'
  | 10 => 'a' | 11 => 'b' | 12 => 'c' | 13 => 'd' | 14 => 'e'
  | _ => 'f'

/-- Render a number in exactly `len` lowercase hexadecimal digits
(most significant first). -/
def toHexFixed (n : Nat) : Nat → List Char
  | 0 => []
  | len + 1 => toHexFixed (n / 16) len ++ [hexDigit (n % 16)]

/-- Render a hash state as 64 lowercase hexadecimal characters, eight per
word, in word order. -/
def hexOfHash (s : Hash8) : List Char :=
  toHexFixed s.a 8 ++ toHexFixed s.b 8 ++ toHexFixed s.c 8 ++ toHexFixed s.d 8 ++
  toHexFixed s.e 8 ++ toHexFixed s.f 8 ++ toHexFixed s.g 8 ++ toHexFixed s.h 8

/-- UTF-8 encoding of one Unicode code point, as bytes. -/
def utf8EncodeChar (c : Char) : List Nat :=
  let n := c.toNat
  if n < 0x80 then [n]
  else if n < 0x800 then
    [0xC0 ||| (n >>> 6), 0x80 ||| (n &&& 0x3F)]
  else if n < 0x10000 then
    [0xE0 ||| (n >>> 12), 0x80 ||| ((n >>> 6) &&& 0x3F), 0x80 ||| (n &&& 0x3F)]
  else
    [0xF0 ||| (n >>> 18), 0x80 ||| ((n >>> 12) &&& 0x3F),
     0x80 ||| ((n >>> 6) &&& 0x3F), 0x80 ||| (n &&& 0x3F)]

/-- UTF-8 encoding of a string (Python `str.encode()`). -/
def utf8Encode (s : List Char) : List Nat :=
  (s.map utf8EncodeChar).flatten

/-- Line 57 of `pwgen.py`:
`hphrase = hashlib.sha256(phrase.encode()).hexdigest()` — the 64-character
lowercase hexadecimal SHA-256 digest of the UTF-8 encoding of `phrase`. -/
def hexdigest (phrase : List Char) : List Char :=
  hexOfHash (sha256 (utf8Encode phrase))

/-! ## Python string helpers used by `pwgen` -/

/-- Whitespace characters stripped by Python `str.rstrip()` (the ASCII
whitespace class; word-list lines hold ASCII words plus a newline). -/
def isPySpace (c : Char) : Bool :=
  c = ' ' || c = '\t' || c = '\n' || c = '\x0b' || c = '\x0c' || c = '\r'

/-- Python `str.rstrip()`: remove trailing whitespace. -/
def pyRstrip (l : List Char) : List Char :=
  (l.reverse.dropWhile isPySpace).reverse

/-- Python `" ".join(...)`: join strings with single space separators. -/
def joinSpace : List (List Char) → List Char
  | [] => []
  | [w] => w
  | w :: ws => w ++ ' ' :: joinSpace ws

/-- Python `s.index(c)`: the index of the first occurrence of `c` in `s`
(Python raises `ValueError` when `c` is absent; `pwgen` only calls it on
characters taken from the string itself, so that case never arises —
the value returned here for an absent character is immaterial). -/
def pyIndex : List Char → Char → Nat
  | [], _ => 0
  | x :: xs, c => if x = c then 0 else pyIndex xs c + 1

/-! ## The `pwgen` function (lines 37-94 of `pwgen.py`)

Each random draw of the source is modelled by an explicit index:

* `random.choices(wlist, k=4)` (line 51): four independent uniform indices
  into the word list — `wordIdxs`;
* `random.choices(hphrase, k=15)` (line 60): fifteen independent uniform
  indices into the 64-character digest — `selIdxs`;
* `random.choice(pos)` (line 65): a uniform index into the `pos` list —
  `capIdx` (on an empty `pos` Python raises `IndexError`, modelled as
  `none`);
* `random.randint(0, len(pw) - 1)` (line 76): a uniform value of the
  inclusive range `[0, len(pw) - 1]` — `insIdx`;
* `random.choice(symbols)` (line 83): a uniform index into the fourteen
  symbols — `symIdx`. -/

/-- The outcome of every random draw made during one run of `pwgen`. -/
structure Rand where
  wordIdxs : List Nat
  selIdxs : List Nat
  capIdx : Nat
  insIdx : Nat
  symIdx : Nat

/-- Line 40: `capl = "acdefghjklmnpqrstuvwxyz"`, the letters acceptable
for capitalisation. -/
def capl : List Char := "acdefghjklmnpqrstuvwxyz".toList

/-- Line 43: `symbols = "=-!$%^&*()\x7b\x7d[]"`, the fourteen acceptable
symbols. -/
def symbols : List Char := "=-!$%^&*()\x7b\x7d[]".toList

/-- Line 51: `words = [word.rstrip() for word in random.choices(wlist, k=4)]`
with the draw fixed by `idxs`: sampling with replacement, then trailing
whitespace stripped from each word. -/
def sampledWords (wlist : List (List Char)) (idxs : List Nat) : List (List Char) :=
  idxs.map (fun i => pyRstrip (wlist.getD i []))

/-- Line 60: `ch = "".join(random.choices(hphrase, k=15))` with the draw
fixed by `idxs`: characters sampled with replacement from the digest. -/
def selection (hphrase : List Char) (idxs : List Nat) : List Char :=
  idxs.map (fun i => hphrase.getD i ' ')

/-- Line 64: `pos = [ch.index(c) for c in ch if c in capl]` — for every
character of `ch` that is in `capl`, the index of its FIRST occurrence
in `ch`. -/
def posList (ch : List Char) : List Nat :=
  (ch.filter (fun c => capl.contains c)).map (fun c => pyIndex ch c)

/-- Lines 69-72: split `ch` at the chosen position `pi`, upper-case the
character there and re-combine:
`left = ch[:pi - 1] if pi > 0 else ""`, `c = ch[pi].upper()`,
`right = ch[pi + 1:] if pi < len(ch) - 1 else ""`, `pw = left + c + right`. -/
def capitalize (ch : List Char) (pi : Nat) : List Char :=
  (if pi > 0 then ch.take (pi - 1) else []) ++
    (ch.getD pi ' ').toUpper ::
      (if pi < ch.length - 1 then ch.drop (pi + 1) else [])

/-- Lines 79-85: `left = pw[:pi] if pi > 0 else ""`,
`right = pw[pi:] if pi < len(pw) - 1 else ""`, `pw = left + symbol + right`. -/
def insertSymbol (pw : List Char) (pi : Nat) (symbol : Char) : List Char :=
  (if pi > 0 then pw.take pi else []) ++
    symbol :: (if pi < pw.length - 1 then pw.drop pi else [])

/-- Line 88: `xpw = [pw[i:i + 4] for i in range(0, len(pw), 4)]` — the
left-to-right 4-character chunks of `pw`; `range(0, len(pw), 4)` has
`⌈len(pw) / 4⌉` elements `0, 4, 8, ...`. -/
def pyChunks (pw : List Char) : List (List Char) :=
  (List.range ((pw.length + 3) / 4)).map (fun i => (pw.drop (4 * i)).take 4)

/-- Line 54: `phrase = " ".join(words)` for the words sampled by `r`. -/
def phraseOf (wlist : List (List Char)) (r : Rand) : List Char :=
  joinSpace (sampledWords wlist r.wordIdxs)

/-- Line 57 applied to the phrase of the run fixed by `r`. -/
def digestOf (wlist : List (List Char)) (r : Rand) : List Char :=
  hexdigest (phraseOf wlist r)

/-- Line 60 applied to the digest of the run fixed by `r`: the 15-character
selection `ch`. -/
def selectionOf (wlist : List (List Char)) (r : Rand) : List Char :=
  selection (digestOf wlist r) r.selIdxs

/-- Lines 37-94, the whole of `pwgen` with every random draw fixed by `r`:
word sampling, phrase hashing, character selection, capitalisation, symbol
insertion and formatting.  The returned value is the line printed on
line 94; `none` models the `IndexError` raised by `random.choice(pos)`
when `pos` is empty (and, immaterially under the in-range hypotheses the
theorems carry, an out-of-range `capIdx`), in which case nothing reaches
the `print` of line 94. -/
def pwgen (wlist : List (List Char)) (r : Rand) : Option (List Char) :=
  let ch := selectionOf wlist r
  let pos := posList ch
  match pos.get? r.capIdx with
  | none => none
  | some pi =>
    let pw := capitalize ch pi
    let pw2 := insertSymbol pw r.insIdx (symbols.getD r.symIdx '=')
    some (joinSpace (pyChunks pw2))

/-! ## Concrete inputs used to exercise `pwgen`

The word list of the spec's test scenario, and specific runs over it.
Its phrase for word indices `[0, 3, 4, 1]` is `"apple delta echo banana"`,
whose digest is
`e31bfcd86f94613f0098e76211482cd47a4557c68172be47becb9d9da2ad8c6c`
(digest index 16 holds `'0'`, index 33 holds `'a'`). -/

/-- The scenario word list, each line with its trailing newline as
`readlines` keeps it. -/
def wl0 : List (List Char) :=
  ["apple\n".toList, "banana\n".toList, "cherry\n".toList,
   "delta\n".toList, "echo\n".toList]

/-- A run whose selection is `"0a0000000000000"`: the only eligible letter
first occurs at index 1, so `pos = [1]`; the symbol is inserted at index 0. -/
def r1 : Rand := ⟨[0, 3, 4, 1], [16, 33, 16, 16, 16, 16, 16, 16, 16, 16, 16, 16, 16, 16, 16], 0, 0, 0⟩

/-- A run whose selection is `"a00000000000000"`: capitalisation at index 0,
then the symbol is inserted at the largest index `randint` can return,
`len(pw) - 1 = 14`. -/
def r2 : Rand := ⟨[0, 3, 4, 1], [33, 16, 16, 16, 16, 16, 16, 16, 16, 16, 16, 16, 16, 16, 16], 0, 14, 0⟩

/-- A run whose selection is `"00000000000000a"`: the only eligible letter
is at index 14, and the symbol lands at `len(pw) - 1 = 13`. -/
def r4 : Rand := ⟨[0, 3, 4, 1], [16, 16, 16, 16, 16, 16, 16, 16, 16, 16, 16, 16, 16, 16, 33], 0, 13, 0⟩

/-- A run whose selection is `"000000000000000"`: no eligible letter at all. -/
def r6 : Rand := ⟨[0, 3, 4, 1], List.replicate 15 16, 0, 0, 0⟩

/-- A run whose selection is fifteen copies of `'a'` (digest index 33). -/
def r5 : Rand := ⟨[0, 3, 4, 1], List.replicate 15 33, 0, 0, 0⟩

/-- A run whose selection is the first 15 digest characters
`"e31bfcd86f94613"`, with `pos = [0, 4, 5, 6, 4]`; `capIdx = 1` picks
position 4, and the symbol goes to index 2 of the capitalized string. -/
def r9 : Rand := ⟨[0, 3, 4, 1], [0, 1, 2, 3, 4, 5, 6, 7, 8, 9, 10, 11, 12, 13, 14], 1, 2, 3⟩

/-- The lowercase hexadecimal alphabet of a digest. -/
def hexAlphabet : List Char := "0123456789abcdef".toList

/-! ## Helper lemmas -/

/-- A hexadecimal digit character is always in the hexadecimal alphabet. -/
theorem hexDigit_mem (n : Nat) : hexAlphabet.contains (hexDigit n) = true := by
  unfold hexDigit
  split <;> decide

/-- Fixed-width hexadecimal rendering has exactly the requested width. -/
theorem toHexFixed_length : ∀ (k n : Nat), (toHexFixed n k).length = k
  | 0, _ => rfl
  | k + 1, n => by
      simp [toHexFixed, toHexFixed_length k]

/-- Every character of a fixed-width hexadecimal rendering is in the
hexadecimal alphabet. -/
theorem toHexFixed_all_hex : ∀ (k n : Nat),
    (toHexFixed n k).all (fun c => hexAlphabet.contains c) = true
  | 0, _ => rfl
  | k + 1, n => by
      simp only [toHexFixed, List.all_append, toHexFixed_all_hex k,
        List.all_cons, List.all_nil, Bool.and_true, Bool.true_and]
      exact hexDigit_mem _

/-- The digest has exactly 64 characters. -/
theorem hexdigest_length (phrase : List Char) : (hexdigest phrase).length = 64 := by
  simp [hexdigest, hexOfHash, toHexFixed_length]

/-- Every character of the digest is lowercase hexadecimal. -/
theorem hexdigest_all_hex (phrase : List Char) :
    (hexdigest phrase).all (fun c => hexAlphabet.contains c) = true := by
  simp only [hexdigest, hexOfHash, List.all_append, Bool.and_eq_true]
  repeat' apply And.intro
  all_goals exact toHexFixed_all_hex _ _

/-- Length of the capitalized string: 15 when the chosen position is 0,
14 otherwise — `ch[:pi - 1]` loses the character at `pi - 1` when
`pi > 0`. -/
theorem capitalize_length (ch : List Char) (pi : Nat)
    (h15 : ch.length = 15) (hpi : pi < 15) :
    (capitalize ch pi).length = if pi = 0 then 15 else 14 := by
  simp only [capitalize, List.length_append, List.length_cons,
    List.length_take, List.length_drop, h15]
  split_ifs <;> simp <;> omega

/-- Length after symbol insertion: one more than before when the position
is strictly below the last index, unchanged (the last character is
replaced) when it equals the last index. -/
theorem insertSymbol_length (pw : List Char) (pi : Nat) (sym : Char)
    (hpw : 1 ≤ pw.length) (hpi : pi ≤ pw.length - 1) :
    (insertSymbol pw pi sym).length =
      if pi < pw.length - 1 then pw.length + 1 else pw.length := by
  simp only [insertSymbol, List.length_append, List.length_cons,
    List.length_take, List.length_drop]
  split_ifs <;> simp <;> omega

/-- When no character of `ch` is eligible, the `pos` list is empty. -/
theorem posList_eq_nil (ch : List Char)
    (h : ch.all (fun c => !(capl.contains c)) = true) :
    posList ch = [] := by
  unfold posList
  rw [List.filter_eq_nil_iff.mpr, List.map_nil]
  intro a ha
  have := List.all_eq_true.mp h a ha
  simp_all

/-- One step of the chunk comprehension of line 88: on a non-empty string
the first chunk is the first four characters and the rest is the
comprehension of the remainder. -/
theorem pyChunks_cons (pw : List Char) (h : pw ≠ []) :
    pyChunks pw = pw.take 4 :: pyChunks (pw.drop 4) := by
  unfold pyChunks
  have hn : 0 < pw.length := List.length_pos.mpr h
  have h4 : (pw.length + 3) / 4 = ((pw.drop 4).length + 3) / 4 + 1 := by
    simp only [List.length_drop]
    omega
  rw [h4, List.range_succ_eq_map, List.map_cons, List.map_map]
  congr 1
  apply List.map_congr_left
  intro i _
  simp only [Function.comp_apply, List.drop_drop]
  congr 2
  omega

/-- Concatenating the 4-character chunks of line 88 restores the string. -/
theorem flatten_pyChunks (pw : List Char) : (pyChunks pw).flatten = pw := by
  by_cases h : pw = []
  · subst h; rfl
  · rw [pyChunks_cons pw h, List.flatten_cons,
      flatten_pyChunks (pw.drop 4), List.take_append_drop]
termination_by pw.length
decreasing_by
  have : 0 < pw.length := List.length_pos.mpr h
  simp only [List.length_drop]
  omega

/-- The head of `dropWhile p` never satisfies `p`. -/
theorem head?_dropWhile_false (p : Char → Bool) :
    ∀ (l : List Char) (c : Char), (l.dropWhile p).head? = some c → p c = false
  | [], c => by simp [List.dropWhile]
  | x :: xs, c => by
      simp only [List.dropWhile]
      by_cases hx : p x = true
      · rw [hx]
        exact head?_dropWhile_false p xs c
      · rw [Bool.not_eq_true] at hx
        rw [hx]
        intro hc
        simp only [List.head?, Option.some.injEq] at hc
        rw [← hc]
        exact hx

/-- `pyRstrip` output never ends in a whitespace character. -/
theorem pyRstrip_getLast (l : List Char) (c : Char)
    (h : (pyRstrip l).getLast? = some c) : isPySpace c = false := by
  unfold pyRstrip at h
  rw [List.getLast?_reverse] at h
  exact head?_dropWhile_false isPySpace _ c h

/-! ## Claims -/

/-- C1: the claim states that every successful run produces a final
password of exactly 16 characters, and a displayed output whose length,
separating spaces stripped, is exactly 16.  The code refutes this: the
run over `wl0` fixed by `r1` (selection `"0a0000000000000"`, a successful
run — the printed line is returned) yields a displayed output whose
space-stripped length is 15, because `ch[:pi - 1]` on line 69 drops the
character before the capitalized position. -/
theorem c1_successful_run_of_length_fifteen :
    pwgen wl0 r1 = some ("=A00 0000 0000 000".toList) ∧
    (("=A00 0000 0000 000".toList).filter (fun c => !(c == ' '))).length = 15 :=
  ⟨by rfl, by rfl⟩

/-- C2: the claim states that the symbol-insertion index ranges over
`[0, 15]` and that insertion at the final index appends the symbol with no
character lost.  The code refutes this: `random.randint(0, len(pw) - 1)`
tops out at `len(pw) - 1`, and there — run over `wl0` fixed by `r2`,
whose capitalized string is `"A00000000000000"` and insertion index is
`14 = len(pw) - 1` — line 80 sets `right = ""`, so the final character of
the capitalized string is replaced by the symbol and the result keeps
length 15 instead of growing to 16. -/
theorem c2_insertion_at_last_index_replaces_final_char :
    pwgen wl0 r2 = some ("A000 0000 0000 00=".toList) ∧
    insertSymbol ("A00000000000000".toList) 14 '=' = "A0000000000000=".toList ∧
    ("A0000000000000=".toList).length = 15 :=
  ⟨by rfl, by rfl, by rfl⟩

/-- C3: the claim states that capitalization replaces the chosen character
in place, leaving the other 14 characters unchanged.  The code refutes
this: for the selection `"e31bfcd86f94613"` (the first 15 digest
characters of the `wl0` scenario run, chosen position 4 — reachable, it
is entry 1 of `pos`), `ch[:pi - 1]` on line 69 omits the character at
index 3, so the result is the 14-character `"e31Fcd86f94613"` rather than
the in-place `"e31bFcd86f94613"`. -/
theorem c3_capitalization_drops_preceding_char :
    capitalize ("e31bfcd86f94613".toList) 4 = "e31Fcd86f94613".toList ∧
    ("e31Fcd86f94613".toList).length = 14 ∧
    (posList ("e31bfcd86f94613".toList)).get? 1 = some 4 :=
  ⟨by rfl, by rfl, by rfl⟩

/-- C4: the claim states that every successful run's final password holds
exactly one uppercase character.  The code refutes this: in the run over
`wl0` fixed by `r4` the selection is `"00000000000000a"`, the eligible
letter sits at position 14, so the capitalized string ends in `'A'`; the
symbol then lands at its last index and replaces that `'A'`, leaving a
printed password with no uppercase character at all. -/
theorem c4_successful_run_with_no_uppercase :
    pwgen wl0 r4 = some ("0000 0000 0000 0=".toList) ∧
    ("0000 0000 0000 0=".toList).all (fun c => !(c.isUpper)) = true :=
  ⟨by rfl, by rfl⟩

/-- C5: the claim states that the candidate positions for capitalization
are all indices holding an eligible character — for the all-`'a'`
selection, every index 0 through 14.  The code refutes this:
`ch.index(c)` on line 64 returns the first occurrence of the character
value, so for fifteen `'a'`s the `pos` list is fifteen copies of 0 and
index 14 (indeed any index other than 0) can never be chosen.  The
all-`'a'` selection is reachable: run `r5` over `wl0` draws digest
index 33 fifteen times. -/
theorem c5_candidates_collapse_to_first_occurrence :
    posList (List.replicate 15 'a') = List.replicate 15 0 ∧
    (posList (List.replicate 15 'a')).contains 14 = false ∧
    selectionOf wl0 r5 = List.replicate 15 'a' :=
  ⟨by rfl, by rfl, by rfl⟩

/-- C6: if the 15-character selection contains no character of the
eligible set `capl`, the `pos` list is empty, `random.choice(pos)` raises
(modelled `none`) and the run produces no output: `pwgen` returns `none`,
never reaching the `print` of line 94. -/
theorem c6_no_eligible_letter_fails (wlist : List (List Char)) (r : Rand)
    (h : (selectionOf wlist r).all (fun c => !(capl.contains c)) = true) :
    pwgen wlist r = none := by
  unfold pwgen
  simp only [posList_eq_nil _ h, List.get?_nil]

/-- C6 witness: the run over `wl0` fixed by `r6` selects fifteen copies of
the digit `'0'` — no eligible letter — and indeed fails. -/
theorem c6_witness : pwgen wl0 r6 = none :=
  c6_no_eligible_letter_fails wl0 r6 (by rfl)

/-- C7: the digest is a pure function of the phrase (it is a Lean
function, so identical phrases give identical digests), is exactly 64
characters long, every character is lowercase hexadecimal, and it is
computed as the SHA-256 of the phrase's UTF-8 encoding. -/
theorem c7_digest_is_64_lowercase_hex (phrase : List Char) :
    (hexdigest phrase).length = 64 ∧
    (hexdigest phrase).all (fun c => hexAlphabet.contains c) = true ∧
    hexdigest phrase = hexOfHash (sha256 (utf8Encode phrase)) :=
  ⟨hexdigest_length phrase, hexdigest_all_hex phrase, rfl⟩

/-- C8: formatter round-trip — for every string (chunking is generic in
the length, not specific to 16), concatenating the left-to-right
4-character chunks of line 88 (that is, the displayed blocks with the
separating spaces removed) reproduces the string exactly. -/
theorem c8_formatter_round_trip (pw : List Char) :
    (pyChunks pw).flatten = pw :=
  flatten_pyChunks pw

/-- C9: the word sampler produces exactly 4 words, each the
trailing-whitespace-stripped form of a word of the list (sampling is with
replacement through the drawn indices), never ending in whitespace; and
for a one-entry word list all four sampled words coincide while the
phrase's digest is still a 64-character value. -/
theorem c9_word_sampler (wlist : List (List Char)) (idxs : List Nat)
    (h4 : idxs.length = 4) (hb : ∀ i ∈ idxs, i < wlist.length) :
    (sampledWords wlist idxs).length = 4
    ∧ (∀ w ∈ sampledWords wlist idxs, ∃ i ∈ idxs, w = pyRstrip (wlist.getD i []))
    ∧ (∀ w ∈ sampledWords wlist idxs, ∀ c, w.getLast? = some c → isPySpace c = false)
    ∧ (∀ w : List Char, wlist = [w] →
        sampledWords wlist idxs = List.replicate 4 (pyRstrip w)
        ∧ (hexdigest (joinSpace (sampledWords wlist idxs))).length = 64) := by
  refine ⟨by simp [sampledWords, h4], ?_, ?_, ?_⟩
  · intro w hw
    obtain ⟨i, hi, hwi⟩ := List.mem_map.mp hw
    exact ⟨i, hi, hwi.symm⟩
  · intro w hw c hc
    obtain ⟨i, _, hwi⟩ := List.mem_map.mp hw
    rw [← hwi] at hc
    exact pyRstrip_getLast _ c hc
  · intro w hww
    subst hww
    refine ⟨?_, hexdigest_length _⟩
    rw [List.eq_replicate_iff]
    refine ⟨by simp [sampledWords, h4], ?_⟩
    intro b hb'
    obtain ⟨i, hi, hbi⟩ := List.mem_map.mp hb'
    have : i = 0 := by
      have := hb i hi
      simp at this
      omega
    subst this
    exact hbi.symm

/-- C9 witness: the scenario word list with word indices `[0, 3, 4, 1]`. -/
theorem c9_witness : (sampledWords wl0 [0, 3, 4, 1]).length = 4 :=
  (c9_word_sampler wl0 [0, 3, 4, 1] (by rfl) (by decide)).1

/-- C10: on a 15-character selection, the final password's length is
`15 - 1` when the capitalization position is positive and `+ 1` when the
symbol-insertion index is strictly below the capitalized string's last
index; it always lies between 14 and 16, and the three concrete runs in
the last conjuncts realise 16, 15 and 14. -/
theorem c10_final_length_formula (ch : List Char) (pi ins : Nat) (sym : Char)
    (h15 : ch.length = 15) (hpi : pi < 15)
    (hins : ins ≤ (capitalize ch pi).length - 1) :
    (insertSymbol (capitalize ch pi) ins sym).length
      = 15 - (if 0 < pi then 1 else 0)
        + (if ins < (capitalize ch pi).length - 1 then 1 else 0)
    ∧ 14 ≤ (insertSymbol (capitalize ch pi) ins sym).length
    ∧ (insertSymbol (capitalize ch pi) ins sym).length ≤ 16
    ∧ (insertSymbol (capitalize ("a00000000000000".toList) 0) 0 '=').length = 16
    ∧ (insertSymbol (capitalize ("a00000000000000".toList) 0) 14 '=').length = 15
    ∧ (insertSymbol (capitalize ("0a0000000000000".toList) 1) 13 '=').length = 14 := by
  have hcap := capitalize_length ch pi h15 hpi
  have hone : 1 ≤ (capitalize ch pi).length := by
    rw [hcap]; split_ifs <;> omega
  have hi := insertSymbol_length (capitalize ch pi) ins sym hone hins
  refine ⟨?_, ?_, ?_, by rfl, by rfl, by rfl⟩ <;>
    rw [hi, hcap] <;> split_ifs <;> omega

/-- C10 witness: selection `"e31bfcd86f94613"`, capitalization position 0,
insertion index 3. -/
theorem c10_witness :
    14 ≤ (insertSymbol (capitalize ("e31bfcd86f94613".toList) 0) 3 '$').length :=
  (c10_final_length_formula ("e31bfcd86f94613".toList) 0 3 '$'
    (by rfl) (by decide) (by decide)).2.1

end Pwgen
